import Mathlib

/-!
Verification model of camControl's `main.py` (class `CameraControl` and the
save/load configuration format of `Window.action_Slot`).

The embedding translates the Python source into executable Lean definitions:

* Python values stored in a control dictionary are `PyVal` (`int` or `str`);
  Python dicts become association lists with Python's insertion semantics
  (`dset` overwrites in place, otherwise appends; `dget` reads the first
  binding).
* The regular expressions `RE_CTL = (\w+).*?\(([a-z]+)\)\s*:\s(.*)$` and
  `attr=(-?\w+)` are embedded as specialised executable matchers.  Character
  classes are modelled at ASCII granularity (the `v4l2-ctl` output the
  program parses is ASCII).  For this pattern the Python backtracking search
  is deterministic: `\w+` cannot contain `(`, `[a-z]+` cannot contain `)`
  and `\s*` cannot contain `:`, so each greedy piece is a maximal run and the
  lazy `.*?` is a first-occurrence scan; the matchers below implement exactly
  that leftmost-match semantics.
* The external `v4l2-ctl` process is an oracle argument: `lenv` maps an
  argument vector to the listing's lines, `genv` maps it to the stdout of a
  `--get-ctrl` call (`none` = the command raised), `env` tells whether a
  `--set-ctrl` call succeeded.
* Python exceptions are `Except PyExc`; a bare `except:` handler is a total
  wrapper around the `Except`-valued body.
-/

/-- Decidable equality for `Except`, used to evaluate the model on concrete
inputs. -/
instance {ε α : Type} [DecidableEq ε] [DecidableEq α] : DecidableEq (Except ε α)
  | .error a, .error b =>
      if h : a = b then isTrue (by rw [h])
      else isFalse (by intro hh; cases hh; exact h rfl)
  | .error _, .ok _ => isFalse (by intro h; cases h)
  | .ok _, .error _ => isFalse (by intro h; cases h)
  | .ok a, .ok b =>
      if h : a = b then isTrue (by rw [h])
      else isFalse (by intro hh; cases hh; exact h rfl)

/-- A Python value held in a control dictionary: `int` or `str`. -/
inductive PyVal where
  | int (i : Int)
  | str (s : String)
deriving DecidableEq, Repr

/-- Python `==` between the values that occur here (`int == str` is `False`). -/
def pyEq : PyVal → PyVal → Bool
  | .int a, .int b => a == b
  | .str a, .str b => a == b
  | _, _ => false

/-- Python exceptions the modelled code can raise. -/
inductive PyExc where
  | keyError
  | indexError
  | cmdError
deriving DecidableEq, Repr

/-- Dictionary read: first binding of the key (`d[k]` / `d.get(k)`). -/
def dget {α : Type} : List (String × α) → String → Option α
  | [], _ => none
  | (k', v) :: rest, k => if k' = k then some v else dget rest k

/-- Dictionary read with default (`d.get(k, dflt)`). -/
def dgetD {α : Type} (d : List (String × α)) (k : String) (dflt : α) : α :=
  (dget d k).getD dflt

/-- Dictionary write `d[k] = v`: overwrite the first binding in place,
otherwise append (Python dict insertion order). -/
def dset {α : Type} : List (String × α) → String → α → List (String × α)
  | [], k, v => [(k, v)]
  | (k', v') :: rest, k, v =>
      if k' = k then (k, v) :: rest else (k', v') :: dset rest k v

/-- Keys of a dictionary, in order. -/
def keysOf {α : Type} (d : List (String × α)) : List String :=
  d.map Prod.fst

/-- One control's attribute dictionary (`type`, `min`, `max`, ...). -/
abbrev Ctl := List (String × PyVal)

/-- The cached control set `self.ctrls`: name to attribute dictionary. -/
abbrev Ctrls := List (String × Ctl)

/-! ## Character classes (ASCII model of Python's `\w`, `[a-z]`, `\s`) -/

/-- Python `\w` at ASCII granularity: letters, digits, underscore. -/
def isWordChar (c : Char) : Bool := c.isAlphanum || c = '_'

/-- Python `[a-z]`. -/
def isLowerAZ (c : Char) : Bool := c.isLower

/-- Python `\s` at ASCII granularity: space, tab, newline, vtab, formfeed, cr. -/
def isSpacePy (c : Char) : Bool :=
  c = ' ' || c = Char.ofNat 9 || c = Char.ofNat 10 || c = Char.ofNat 11 ||
  c = Char.ofNat 12 || c = Char.ofNat 13

/-! ## The control-line pattern `RE_CTL = (\w+).*?\(([a-z]+)\)\s*:\s(.*)$` -/

/-- Match `\(([a-z]+)\)\s*:\s(.*)$` at the head of `s`: an opening paren, a
maximal nonempty lowercase run, a closing paren, a maximal whitespace run, a
colon, one whitespace character, and the remainder (the line holds no
newline, so `(.*)$` captures everything left).  Returns the two captures. -/
def parenMatch : List Char → Option (String × String)
  | '(' :: rest =>
      let ty := rest.takeWhile isLowerAZ
      if ty.isEmpty then none
      else
        match rest.dropWhile isLowerAZ with
        | ')' :: r2 =>
            match r2.dropWhile isSpacePy with
            | ':' :: r4 =>
                match r4 with
                | c :: r5 => if isSpacePy c then some (String.mk ty, String.mk r5) else none
                | [] => none
            | _ => none
        | _ => none
  | _ => none

/-- The lazy gap `.*?` before the paren group: scan left to right for the
first position where `parenMatch` succeeds. -/
def findParen : List Char → Option (String × String)
  | [] => none
  | c :: rest =>
      match parenMatch (c :: rest) with
      | some r => some r
      | none => findParen rest

/-- Leftmost match of `RE_CTL` in a line, returning the three captures
(name, type, remainder).  The scan tries every start position in order; a
start position must begin with a word character, the greedy `(\w+)` then
takes the maximal word run (no `(` can sit inside it), and the rest of the
pattern is searched after that run. -/
def reCtlFind : List Char → Option (String × String × String)
  | [] => none
  | c :: rest =>
      if isWordChar c then
        match findParen (rest.dropWhile isWordChar) with
        | some (ty, r) => some (String.mk (c :: rest.takeWhile isWordChar), ty, r)
        | none => reCtlFind rest
      else reCtlFind rest

/-! ## The attribute pattern `attr=(-?\w+)` and Python `int()` -/

/-- Match `-?\w+` at the head of `s` (greedy, with the Python backtracking
on `-?`: a lone `-` not followed by a word character fails). -/
def tokenAt (s : List Char) : Option (List Char) :=
  match s with
  | '-' :: rest =>
      let r := rest.takeWhile isWordChar
      if r.isEmpty then none else some ('-' :: r)
  | _ =>
      let r := s.takeWhile isWordChar
      if r.isEmpty then none else some r

/-- Match `attr=(-?\w+)` at the head of `s`, returning the capture. -/
def matchAttrAt (attr : List Char) (s : List Char) : Option (List Char) :=
  if attr.isPrefixOf s then
    match s.drop attr.length with
    | '=' :: rest => tokenAt rest
    | _ => none
  else none

/-- `re.search` of `attr=(-?\w+)`: first start position that matches. -/
def findAttrL (attr : List Char) : List Char → Option (List Char)
  | [] => none
  | c :: rest =>
      match matchAttrAt attr (c :: rest) with
      | some tok => some tok
      | none => findAttrL attr rest

/-- String-level wrapper for `findAttrL`. -/
def findAttr (attr rest : String) : Option (List Char) :=
  findAttrL attr.data rest.data

/-- Digits of a decimal numeral with Python's underscore rule (underscores
only between digits), accumulating the value. -/
def digitsUCore (acc : Nat) : List Char → Option Nat
  | [] => some acc
  | '_' :: c :: rest =>
      if c.isDigit then digitsUCore (acc * 10 + (c.toNat - 48)) rest else none
  | c :: rest =>
      if c.isDigit then digitsUCore (acc * 10 + (c.toNat - 48)) rest else none

/-- Value of a nonempty digit-and-underscore numeral, per Python `int()`. -/
def digitsU : List Char → Option Nat
  | [] => none
  | '_' :: _ => none
  | c :: rest => if c.isDigit then digitsUCore (c.toNat - 48) rest else none

/-- Python `int(tok)` for a token matched by `-?\w+`: optional sign, then a
valid decimal numeral; `none` models the `ValueError` branch. -/
def pyIntTok : List Char → Option Int
  | '-' :: rest => (digitsU rest).map (fun n => -(n : Int))
  | s => (digitsU s).map (fun n => (n : Int))

/-- `try: val = int(val) / except ValueError: pass` on an attribute token. -/
def mkAttrVal (tok : List Char) : PyVal :=
  match pyIntTok tok with
  | some i => .int i
  | none => .str (String.mk tok)

/-! ## `CameraControl.get_ctls` -/

/-- The `ATTRS` tuple of `CameraControl`. -/
def ATTRS : List String := ["min", "max", "step", "default", "value", "flags"]

/-- The attribute loop of `get_ctls`: for each attribute in `ATTRS` order,
search the remainder; on a hit store the (possibly int-converted) capture,
on a miss continue. -/
def applyAttrs : List String → String → Ctl → Ctl
  | [], _, ctl => ctl
  | a :: as, rest, ctl =>
      match findAttr a rest with
      | none => applyAttrs as rest ctl
      | some tok => applyAttrs as rest (dset ctl a (mkAttrVal tok))

/-- The control dictionary built for one matching line: `{"type": ty}` then
the attribute loop over the remainder. -/
def buildCtl (ty rest : String) : Ctl :=
  applyAttrs ATTRS rest [("type", .str ty)]

/-- One iteration of the `for line in ret` loop of `get_ctls`.
`RE_CTL.split(line)` yields `[pre, name, type, rest, post]` when the pattern
matches (it always reaches `$`, so there is exactly one match) and `[line]`
when it does not.  The list is nonempty either way, so `if not m: continue`
never fires; in the no-match case `m[1]` raises `IndexError`. -/
def processLine (ctrls : Ctrls) (line : String) : Except PyExc Ctrls :=
  match reCtlFind line.data with
  | some (n, ty, rest) => .ok (dset ctrls n (buildCtl ty rest))
  | none => .error .indexError

/-- The whole parsing loop of `get_ctls` over the listing's lines. -/
def getCtlsParse : List String → Ctrls → Except PyExc Ctrls
  | [], ctrls => .ok ctrls
  | l :: ls, ctrls =>
      match processLine ctrls l with
      | .error e => .error e
      | .ok c2 => getCtlsParse ls c2

/-- The device prefix of every `v4l2-ctl` invocation: `if self.device:`
(a nonempty string is truthy) prepends `-d <device>`. -/
def devPre (device : String) : List String :=
  if device = "" then [] else ["-d", device]

/-- Result of `get_ctls`: the argument vector passed to `v4l2-ctl` and the
parsed control set (or the propagated exception). -/
structure ListRes where
  argv : List String
  res : Except PyExc Ctrls
deriving DecidableEq, Repr

/-- `CameraControl.get_ctls`, with the external command as oracle `lenv`
from argument vector to output lines (each line taken without its trailing
newline, which no capture of `RE_CTL` can contain anyway). -/
def get_ctls (device : String) (lenv : List String → List String) : ListRes :=
  ⟨devPre device ++ ["-l"], getCtlsParse (lenv (devPre device ++ ["-l"])) []⟩

/-! ## `CameraControl.getValue` -/

/-- Python `str.split()` with no separator: split on whitespace runs,
dropping empty pieces. -/
def pySplitAux : List Char → List Char → List (List Char)
  | cur, [] => if cur.isEmpty then [] else [cur.reverse]
  | cur, c :: rest =>
      if isSpacePy c then
        if cur.isEmpty then pySplitAux [] rest
        else cur.reverse :: pySplitAux [] rest
      else pySplitAux (c :: cur) rest

/-- Python `s.split()`. -/
def pySplit (s : List Char) : List (List Char) := pySplitAux [] s

/-- Value of an all-digit token (`int(s)` for `s.isdigit()` tokens). -/
def natOfDigits (l : List Char) : Nat :=
  l.foldl (fun a c => a * 10 + (c.toNat - 48)) 0

/-- Argument vector of the `--get-ctrl` invocation. -/
def getArgv (device name : String) : List String :=
  devPre device ++ ["--get-ctrl", name]

/-- The body of `getValue`'s `try:` block: run the command, collect the
all-digit tokens of its output, take the first (`IndexError` when none),
and store it as the control's cached value (`KeyError` when the name is
unknown; Python evaluates `val[0]` before the subscript target). -/
def getValueBody (genv : List String → Option String) (ctrls : Ctrls)
    (argv : List String) (name : String) : Except PyExc (Int × Ctrls) :=
  match genv argv with
  | none => .error .cmdError
  | some out =>
      let digs := (pySplit out.data).filter (fun t => !t.isEmpty && t.all Char.isDigit)
      match digs with
      | [] => .error .indexError
      | d :: _ =>
          match dget ctrls name with
          | none => .error .keyError
          | some ctl =>
              .ok ((natOfDigits d : Int),
                dset ctrls name (dset ctl "value" (.int (natOfDigits d))))

/-- Result of `getValue`: the argument vector, the returned value, the
control set afterwards, and whether the error message was printed. -/
structure GetRes where
  argv : List String
  ret : Int
  ctrls : Ctrls
  emsg : Bool
deriving DecidableEq, Repr

/-- `CameraControl.getValue`: the bare `except:` turns every failure into
a printed message and return value `0`, leaving the control set unchanged. -/
def getValue (device : String) (genv : List String → Option String)
    (ctrls : Ctrls) (name : String) : GetRes :=
  match getValueBody genv ctrls (getArgv device name) name with
  | .ok (v, c2) => ⟨getArgv device name, v, c2, false⟩
  | .error _ => ⟨getArgv device name, 0, ctrls, true⟩

/-! ## `CameraControl.setValue` -/

/-- `str(val)` for the values stored in a control dictionary. -/
def pyStr : PyVal → String
  | .int i => toString i
  | .str s => s

/-- Argument vector of the `--set-ctrl` invocation. -/
def setArgv (device name : String) (val : PyVal) : List String :=
  devPre device ++ ["--set-ctrl", name ++ "=" ++ pyStr val]

/-- Result of `setValue`: control set afterwards, returned boolean, the
issued command if one ran, and whether the error message was printed. -/
structure SetRes where
  ctrls : Ctrls
  ret : Bool
  issued : Option (List String)
  emsg : Bool
deriving DecidableEq, Repr

/-- `CameraControl.setValue`.  The lookup `self.ctrls[name]` sits outside
the `try:`, so an unknown name raises `KeyError`; an inactive control
returns `True` without running the command; a failing command prints and
returns `False`; a successful one stores the value and returns `True`. -/
def setValue (device : String) (env : List String → Bool) (ctrls : Ctrls)
    (name : String) (val : PyVal) : Except PyExc SetRes :=
  match dget ctrls name with
  | none => .error .keyError
  | some ctl =>
      if pyEq (dgetD ctl "flags" (.str "")) (.str "inactive") then
        .ok ⟨ctrls, true, none, false⟩
      else if env (setArgv device name val) then
        .ok ⟨dset ctrls name (dset ctl "value" val), true, some (setArgv device name val), false⟩
      else
        .ok ⟨ctrls, false, some (setArgv device name val), true⟩

/-! ## `CameraControl.update` -/

/-- One `setValue` call recorded by `update`: the control's name, the value
passed, and the command issued (`none` for an inactive control). -/
structure TEnt where
  name : String
  val : PyVal
  issued : Option (List String)
deriving DecidableEq, Repr

/-- The type stored for a named control. -/
def ctlType (ctrls : Ctrls) (n : String) : Option PyVal :=
  (dget ctrls n).bind (fun c => dget c "type")

/-- One loop iteration of a pass of `update`: read `c["type"]` (`KeyError`
when absent), skip when the pass's guard fires, otherwise read the value to
send (`c["default"]` under reset, else `c["value"]`) and call `setValue`. -/
def passStep (device : String) (env : List String → Bool) (reset : Bool)
    (skip : PyVal → Bool) (ctrls : Ctrls) (tr : List TEnt) (n : String) :
    Except PyExc (Ctrls × List TEnt) :=
  match dget ctrls n with
  | none => .error .keyError
  | some c =>
      match dget c "type" with
      | none => .error .keyError
      | some ty =>
          if skip ty then .ok (ctrls, tr)
          else
            match dget c (if reset then "default" else "value") with
            | none => .error .keyError
            | some val =>
                match setValue device env ctrls n val with
                | .error e => .error e
                | .ok r => .ok (r.ctrls, tr ++ [⟨n, val, r.issued⟩])

/-- One pass of `update` over the given key sequence. -/
def runPass (device : String) (env : List String → Bool) (reset : Bool)
    (skip : PyVal → Bool) : List String → Ctrls → List TEnt →
    Except PyExc (Ctrls × List TEnt)
  | [], ctrls, tr => .ok (ctrls, tr)
  | n :: ns, ctrls, tr =>
      match passStep device env reset skip ctrls tr n with
      | .error e => .error e
      | .ok (c2, t2) => runPass device env reset skip ns c2 t2

/-- Guard of the first pass: `if c["type"] == "int": continue`. -/
def skipPass1 (ty : PyVal) : Bool := pyEq ty (.str "int")

/-- Guard of the second pass:
`if c["type"] == "bool" or c["type"] == "menu": continue`. -/
def skipPass2 (ty : PyVal) : Bool := pyEq ty (.str "bool") || pyEq ty (.str "menu")

/-- Result of `update`: the control set afterwards and the ordered trace of
`setValue` calls made by the two passes. -/
structure UpdRes where
  ctrls : Ctrls
  trace : List TEnt
deriving DecidableEq, Repr

/-- `CameraControl.update`: first pass over every control that is not an
`int`, second pass over every control that is neither `bool` nor `menu`.
Each pass iterates the dictionary's keys (unchanged by `setValue`) and reads
the current attribute dictionary at each step. -/
def update (device : String) (env : List String → Bool) (ctrls : Ctrls)
    (reset : Bool) : Except PyExc UpdRes :=
  match runPass device env reset skipPass1 (keysOf ctrls) ctrls [] with
  | .error e => .error e
  | .ok (c1, t1) =>
      match runPass device env reset skipPass2 (keysOf c1) c1 t1 with
      | .error e => .error e
      | .ok (c2, t2) => .ok ⟨c2, t2⟩

/-! ## Dictionary lemmas -/

theorem dget_dset_self {α : Type} (d : List (String × α)) (k : String) (v : α) :
    dget (dset d k v) k = some v := by
  induction d with
  | nil => simp [dget, dset]
  | cons p rest ih =>
      obtain ⟨k', v'⟩ := p
      by_cases h : k' = k <;> simp [dget, dset, h, ih]

theorem dget_dset_ne {α : Type} (d : List (String × α)) (k k' : String) (v : α)
    (h : k' ≠ k) : dget (dset d k v) k' = dget d k' := by
  induction d with
  | nil => simp [dget, dset, Ne.symm h]
  | cons p rest ih =>
      obtain ⟨k0, v0⟩ := p
      by_cases h0 : k0 = k
      · subst h0
        simp [dget, dset, Ne.symm h, fun hh : k0 = k' => h (hh.symm)]
      · by_cases h1 : k0 = k' <;> simp [dget, dset, h0, h1, h, ih]

theorem mem_keys_of_dget {α : Type} (d : List (String × α)) (k : String) (v : α)
    (h : dget d k = some v) : k ∈ keysOf d := by
  induction d with
  | nil => simp [dget] at h
  | cons p rest ih =>
      obtain ⟨k0, v0⟩ := p
      by_cases h0 : k0 = k
      · simp [keysOf, h0]
      · rw [show dget ((k0, v0) :: rest) k = dget rest k from by simp [dget, h0]] at h
        exact List.mem_cons_of_mem _ (ih h)

theorem keys_dset_mem {α : Type} (d : List (String × α)) (k : String) (v : α)
    (h : k ∈ keysOf d) : keysOf (dset d k v) = keysOf d := by
  induction d with
  | nil => simp [keysOf] at h
  | cons p rest ih =>
      obtain ⟨k0, v0⟩ := p
      by_cases h0 : k0 = k
      · simp [dset, h0, keysOf]
      · have hk : k ∈ keysOf rest := by
          cases List.mem_cons.mp h with
          | inl hh => exact absurd hh.symm h0
          | inr hh => exact hh
        simp only [dset, if_neg h0]
        have := ih hk
        simp only [keysOf, List.map_cons] at this ⊢
        rw [this]

theorem dset_fresh {α : Type} (d : List (String × α)) (k : String) (v : α)
    (h : k ∉ keysOf d) : dset d k v = d ++ [(k, v)] := by
  induction d with
  | nil => simp [dset]
  | cons p rest ih =>
      obtain ⟨k0, v0⟩ := p
      rw [show keysOf ((k0, v0) :: rest) = k0 :: keysOf rest from rfl] at h
      have h1 : ¬k0 = k := fun hh => h (by rw [← hh]; exact List.mem_cons_self _ _)
      have h2 : k ∉ keysOf rest := fun hh => h (List.mem_cons_of_mem _ hh)
      simp [dset, h1, ih h2]

theorem pyEq_str_iff (v : PyVal) (t : String) : pyEq v (.str t) = true ↔ v = .str t := by
  cases v <;> simp [pyEq]

/-! ## Claim C3: non-matching listing lines -/

/-- C3: claimed: `get_ctls` skips every line that does not match the control
pattern and never raises while parsing.  The code instead raises: for a
non-matching line `RE_CTL.split` returns the one-element list `[line]`
(which is truthy, so `if not m: continue` never fires) and `m[1]` raises
`IndexError`.  Evaluated on a listing whose second line is the header
`"User Controls"`: parsing stops with the `IndexError` instead of skipping. -/
theorem C3_nonmatching_line_raises :
    getCtlsParse
        ["brightness 0x00980900 (int)    : min=0 max=255 step=1 default=128 value=128",
         "User Controls"] [] = .error .indexError ∧
    processLine [] "User Controls" = .error .indexError := by decide

/-! ## Claim C4: a failing set command is caught -/

/-- C4: for a known control whose cached flags are not `"inactive"` (so the
external command actually runs), a failing `--set-ctrl` command makes
`setValue` return `False` with the error message printed, the control set
unchanged, and no exception propagated. -/
theorem C4_set_failure_caught (device : String) (env : List String → Bool)
    (ctrls : Ctrls) (name : String) (val : PyVal) (ctl : Ctl)
    (hname : dget ctrls name = some ctl)
    (hact : dgetD ctl "flags" (.str "") ≠ PyVal.str "inactive")
    (hfail : env (setArgv device name val) = false) :
    setValue device env ctrls name val =
      .ok ⟨ctrls, false, some (setArgv device name val), true⟩ := by
  cases hpe : pyEq (dgetD ctl "flags" (.str "")) (.str "inactive") with
  | true => exact absurd ((pyEq_str_iff _ _).mp hpe) hact
  | false => simp [setValue, hname, hpe, hfail]

/-- C4 witness: a concrete failing set on an active known control. -/
theorem C4_witness :
    setValue "" (fun _ => false)
        [("contrast", [("type", PyVal.str "int"), ("value", PyVal.int 1)])]
        "contrast" (PyVal.int 2) =
      .ok ⟨[("contrast", [("type", PyVal.str "int"), ("value", PyVal.int 1)])],
        false, some (setArgv "" "contrast" (PyVal.int 2)), true⟩ :=
  C4_set_failure_caught "" (fun _ => false)
    [("contrast", [("type", PyVal.str "int"), ("value", PyVal.int 1)])]
    "contrast" (PyVal.int 2)
    [("type", PyVal.str "int"), ("value", PyVal.int 1)]
    (by decide) (by decide) rfl

/-! ## Claim C5: a failing read is caught -/

/-- C5: when the `--get-ctrl` command raises, or its output contains no
all-digit token, `getValue` returns `0`, prints the message, leaves the
control set unchanged, and propagates no exception. -/
theorem C5_get_failure_caught (device : String) (genv : List String → Option String)
    (ctrls : Ctrls) (name : String)
    (hfail : genv (getArgv device name) = none ∨
      ∃ out, genv (getArgv device name) = some out ∧
        (pySplit out.data).filter (fun t => !t.isEmpty && t.all Char.isDigit) = []) :
    getValue device genv ctrls name = ⟨getArgv device name, 0, ctrls, true⟩ := by
  rcases hfail with h | ⟨out, h, hdig⟩
  · simp [getValue, getValueBody, h]
  · simp [getValue, getValueBody, h, hdig]

/-- C5 witness: a failing command and an output with no usable token. -/
theorem C5_witness :
    getValue "" (fun _ => none) [] "gain" = ⟨["--get-ctrl", "gain"], 0, [], true⟩ ∧
    getValue "" (fun _ => some "gain: -3") [] "gain" =
      ⟨["--get-ctrl", "gain"], 0, [], true⟩ :=
  ⟨C5_get_failure_caught "" (fun _ => none) [] "gain" (Or.inl rfl),
   C5_get_failure_caught "" (fun _ => some "gain: -3") [] "gain"
     (Or.inr ⟨"gain: -3", rfl, by decide⟩)⟩

/-! ## Claim C6: a successful read returns and caches the reported value -/

/-- The cached `value` attribute of a named control. -/
def ctlValue (ctrls : Ctrls) (n : String) : Option PyVal :=
  (dget ctrls n).bind (fun c => dget c "value")

/-- C6: for a known control, when the command output has a first all-digit
token, `getValue` returns that integer and stores it as the control's cached
`value` attribute (and prints nothing). -/
theorem C6_get_success (device : String) (genv : List String → Option String)
    (ctrls : Ctrls) (name : String) (ctl : Ctl) (out : String)
    (d : List Char) (ds : List (List Char))
    (hout : genv (getArgv device name) = some out)
    (hdig : (pySplit out.data).filter (fun t => !t.isEmpty && t.all Char.isDigit) = d :: ds)
    (hname : dget ctrls name = some ctl) :
    (getValue device genv ctrls name).ret = (natOfDigits d : Int) ∧
    ctlValue (getValue device genv ctrls name).ctrls name =
      some (.int (natOfDigits d)) ∧
    (getValue device genv ctrls name).emsg = false := by
  simp [getValue, getValueBody, hout, hdig, hname, ctlValue, dget_dset_self]

/-- C6 witness: reading `128` from a concrete command output. -/
theorem C6_witness :
    (getValue "" (fun _ => some "brightness: 128")
        [("brightness", [("type", PyVal.str "int")])] "brightness").ret = (128 : Int) ∧
    ctlValue (getValue "" (fun _ => some "brightness: 128")
        [("brightness", [("type", PyVal.str "int")])] "brightness").ctrls "brightness" =
      some (.int 128) ∧
    (getValue "" (fun _ => some "brightness: 128")
        [("brightness", [("type", PyVal.str "int")])] "brightness").emsg = false := by
  have := C6_get_success "" (fun _ => some "brightness: 128")
    [("brightness", [("type", PyVal.str "int")])] "brightness"
    [("type", PyVal.str "int")] "brightness: 128"
    ['1', '2', '8'] [] rfl (by decide) (by decide)
  simpa using this

/-! ## Claim C9: the device flag -/

theorem setValue_issued (device : String) (env : List String → Bool)
    (ctrls : Ctrls) (name : String) (val : PyVal) (r : SetRes)
    (h : setValue device env ctrls name val = .ok r) :
    r.issued = none ∨ r.issued = some (setArgv device name val) := by
  unfold setValue at h
  split at h
  · cases h
  · split at h
    · cases h; left; rfl
    · split at h
      · cases h; right; rfl
      · cases h; right; rfl

/-- C9: every invocation by `get_ctls`, `getValue` and `setValue` carries
`-d <device>` exactly when a nonempty device path was supplied, and no
device argument otherwise. -/
theorem C9_device_threading (device : String) (lenv : List String → List String)
    (genv : List String → Option String) (env : List String → Bool)
    (ctrls : Ctrls) (name : String) (val : PyVal) :
    (device ≠ "" →
      (get_ctls device lenv).argv = ["-d", device, "-l"] ∧
      (getValue device genv ctrls name).argv = ["-d", device, "--get-ctrl", name] ∧
      (∀ r a, setValue device env ctrls name val = .ok r → r.issued = some a →
        a = ["-d", device, "--set-ctrl", name ++ "=" ++ pyStr val])) ∧
    (device = "" →
      (get_ctls device lenv).argv = ["-l"] ∧
      (getValue device genv ctrls name).argv = ["--get-ctrl", name] ∧
      (∀ r a, setValue device env ctrls name val = .ok r → r.issued = some a →
        a = ["--set-ctrl", name ++ "=" ++ pyStr val])) := by
  have hget : (getValue device genv ctrls name).argv = getArgv device name := by
    unfold getValue
    cases getValueBody genv ctrls (getArgv device name) name with
    | ok p => obtain ⟨v2, c2⟩ := p; rfl
    | error e => rfl
  constructor <;> intro hdev
  · refine ⟨by simp [get_ctls, devPre, hdev], by rw [hget]; simp [getArgv, devPre, hdev], ?_⟩
    intro r a hok hiss
    rcases setValue_issued device env ctrls name val r hok with h | h
    · rw [h] at hiss; cases hiss
    · rw [h] at hiss
      injection hiss with ha
      simp [← ha, setArgv, devPre, hdev]
  · refine ⟨by simp [get_ctls, devPre, hdev], by rw [hget]; simp [getArgv, devPre, hdev], ?_⟩
    intro r a hok hiss
    rcases setValue_issued device env ctrls name val r hok with h | h
    · rw [h] at hiss; cases hiss
    · rw [h] at hiss
      injection hiss with ha
      simp [← ha, setArgv, devPre, hdev]

/-- C9 witness: the listing invocation with and without a device path. -/
theorem C9_witness :
    (get_ctls "/dev/video2" (fun _ => [])).argv = ["-d", "/dev/video2", "-l"] ∧
    (get_ctls "" (fun _ => [])).argv = ["-l"] :=
  ⟨((C9_device_threading "/dev/video2" (fun _ => []) (fun _ => none) (fun _ => true)
      [] "c" (PyVal.int 0)).1 (by decide)).1,
   ((C9_device_threading "" (fun _ => []) (fun _ => none) (fun _ => true)
      [] "c" (PyVal.int 0)).2 rfl).1⟩

/-! ## Claim C10: inactive controls -/

/-- C10: a control whose cached flags equal `"inactive"` makes `setValue`
return `True` immediately: no command is issued, nothing is printed, and the
control set (in particular the cached value) is unchanged. -/
theorem C10_inactive_noop (device : String) (env : List String → Bool)
    (ctrls : Ctrls) (name : String) (val : PyVal) (ctl : Ctl)
    (hname : dget ctrls name = some ctl)
    (hflag : dgetD ctl "flags" (.str "") = PyVal.str "inactive") :
    setValue device env ctrls name val = .ok ⟨ctrls, true, none, false⟩ := by
  simp [setValue, hname, hflag, pyEq]

/-- C10 witness: a concrete inactive control. -/
theorem C10_witness :
    setValue "" (fun _ => true)
        [("white_balance_temperature",
          [("type", PyVal.str "int"), ("value", PyVal.int 4000),
           ("flags", PyVal.str "inactive")])]
        "white_balance_temperature" (PyVal.int 5000) =
      .ok ⟨[("white_balance_temperature",
          [("type", PyVal.str "int"), ("value", PyVal.int 4000),
           ("flags", PyVal.str "inactive")])], true, none, false⟩ :=
  C10_inactive_noop "" (fun _ => true)
    [("white_balance_temperature",
      [("type", PyVal.str "int"), ("value", PyVal.int 4000),
       ("flags", PyVal.str "inactive")])]
    "white_balance_temperature" (PyVal.int 5000)
    [("type", PyVal.str "int"), ("value", PyVal.int 4000),
     ("flags", PyVal.str "inactive")]
    (by decide) (by decide)

/-! ## Claims C1 and C7: the two passes of `update` -/

theorem setValue_type_pres (device : String) (env : List String → Bool)
    (ctrls : Ctrls) (name : String) (val : PyVal) (r : SetRes)
    (h : setValue device env ctrls name val = .ok r) :
    keysOf r.ctrls = keysOf ctrls ∧ ∀ m, ctlType r.ctrls m = ctlType ctrls m := by
  unfold setValue at h
  split at h
  · cases h
  · rename_i ctl heq
    split at h
    · cases h
      exact ⟨rfl, fun m => rfl⟩
    · split at h
      · cases h
        refine ⟨keys_dset_mem _ _ _ (mem_keys_of_dget _ _ _ heq), fun m => ?_⟩
        by_cases hm : m = name
        · subst hm
          unfold ctlType
          rw [dget_dset_self, heq]
          show dget (dset ctl "value" val) "type" = dget ctl "type"
          exact dget_dset_ne ctl "value" "type" val (by decide)
        · unfold ctlType
          rw [dget_dset_ne _ _ _ _ hm]
      · cases h
        exact ⟨rfl, fun m => rfl⟩

theorem passStep_spec (device : String) (env : List String → Bool) (reset : Bool)
    (skip : PyVal → Bool) (ctrls : Ctrls) (tr : List TEnt) (n : String)
    (cm : Ctrls) (tm : List TEnt)
    (h : passStep device env reset skip ctrls tr n = .ok (cm, tm)) :
    keysOf cm = keysOf ctrls ∧ (∀ m, ctlType cm m = ctlType ctrls m) ∧
    ∃ ty, ctlType ctrls n = some ty ∧
      ((skip ty = true ∧ tm = tr) ∨
       (skip ty = false ∧ ∃ e : TEnt, tm = tr ++ [e] ∧ e.name = n)) := by
  unfold passStep at h
  split at h
  · cases h
  · rename_i c heqc
    split at h
    · cases h
    · rename_i ty heqty
      have htyp : ctlType ctrls n = some ty := by
        unfold ctlType; rw [heqc]; exact heqty
      split at h
      · rename_i hskip
        cases h
        exact ⟨rfl, fun m => rfl, ty, htyp, Or.inl ⟨hskip, rfl⟩⟩
      · rename_i hskip
        split at h
        · cases h
        · rename_i val heqv
          split at h
          · cases h
          · rename_i r heqr
            cases h
            obtain ⟨hk, hty⟩ := setValue_type_pres device env ctrls n val r heqr
            exact ⟨hk, hty, ty, htyp,
              Or.inr ⟨by simpa using hskip, ⟨n, val, r.issued⟩, rfl, rfl⟩⟩

theorem runPass_spec (device : String) (env : List String → Bool) (reset : Bool)
    (skip : PyVal → Bool) (ns : List String) (ctrls : Ctrls) (tr : List TEnt)
    (c2 : Ctrls) (t2 : List TEnt)
    (h : runPass device env reset skip ns ctrls tr = .ok (c2, t2)) :
    keysOf c2 = keysOf ctrls ∧
    (∀ m, ctlType c2 m = ctlType ctrls m) ∧
    ∃ suf, t2 = tr ++ suf ∧
      ∀ e ∈ suf, e.name ∈ ns ∧
        ∃ ty, ctlType ctrls e.name = some ty ∧ skip ty = false := by
  induction ns generalizing ctrls tr with
  | nil =>
      unfold runPass at h
      cases h
      exact ⟨rfl, fun m => rfl, [], by simp, by simp⟩
  | cons n ns ih =>
      unfold runPass at h
      split at h
      · cases h
      · rename_i p cm tm heq
        obtain ⟨hk, hty, ty, htyn, hcase⟩ :=
          passStep_spec device env reset skip ctrls tr n cm tm heq
        obtain ⟨hk2, hty2, suf', hsuf', hmem'⟩ := ih cm tm h
        have htyc : ∀ m, ctlType c2 m = ctlType ctrls m :=
          fun m => (hty2 m).trans (hty m)
        have hmemc : ∀ e ∈ suf', e.name ∈ n :: ns ∧
            ∃ ty', ctlType ctrls e.name = some ty' ∧ skip ty' = false := by
          intro e he
          obtain ⟨hm, ty', hty', hsk⟩ := hmem' e he
          exact ⟨List.mem_cons_of_mem _ hm, ty', (hty e.name) ▸ hty', hsk⟩
        rcases hcase with ⟨hsk, rfl⟩ | ⟨hsk, e0, rfl, hename⟩
        · exact ⟨hk2.trans hk, htyc, suf', hsuf', hmemc⟩
        · refine ⟨hk2.trans hk, htyc, e0 :: suf', by simpa using hsuf', ?_⟩
          intro e he
          rcases List.mem_cons.mp he with rfl | he'
          · exact ⟨by rw [hename]; exact List.mem_cons_self _ _, ty,
              hename ▸ htyn, hsk⟩
          · exact hmemc e he'

/-- Number of `setValue` calls for the named control in a trace. -/
def countName (tr : List TEnt) (n : String) : Nat :=
  (tr.filter (fun e => e.name = n)).length

theorem countName_append (tr su : List TEnt) (n : String) :
    countName (tr ++ su) n = countName tr n + countName su n := by
  simp [countName, List.filter_append]

theorem countName_single (e : TEnt) (n : String) :
    countName [e] n = if e.name = n then 1 else 0 := by
  by_cases h : e.name = n <;> simp [countName, List.filter, h]

theorem runPass_count (device : String) (env : List String → Bool) (reset : Bool)
    (skip : PyVal → Bool) (ns : List String) (ctrls : Ctrls) (tr : List TEnt)
    (c2 : Ctrls) (t2 : List TEnt) (n : String) (ty : PyVal)
    (hnd : ns.Nodup) (hty : ctlType ctrls n = some ty)
    (h : runPass device env reset skip ns ctrls tr = .ok (c2, t2)) :
    countName t2 n = countName tr n +
      (if n ∈ ns ∧ skip ty = false then 1 else 0) := by
  induction ns generalizing ctrls tr with
  | nil =>
      unfold runPass at h
      cases h
      simp
  | cons m ns ih =>
      unfold runPass at h
      split at h
      · cases h
      · rename_i p cm tm heq
        obtain ⟨hk, htypres, ty', htym, hcase⟩ :=
          passStep_spec device env reset skip ctrls tr m cm tm heq
        have htycm : ctlType cm n = some ty := (htypres n).trans hty
        by_cases hmn : m = n
        · subst hmn
          have hnin : m ∉ ns := (List.nodup_cons.mp hnd).1
          have hty' : ty' = ty := by
            rw [hty] at htym; exact (Option.some_injective _ htym).symm
          subst hty'
          have hcnt2 := ih cm tm (List.nodup_cons.mp hnd).2 htycm h
          rw [if_neg (by simp [hnin])] at hcnt2
          rcases hcase with ⟨hsk, rfl⟩ | ⟨hsk, e0, rfl, hename⟩
          · rw [hcnt2, if_neg (by simp [hsk])]
          · rw [hcnt2, countName_append, countName_single, if_pos hename,
              if_pos ⟨List.mem_cons_self _ _, hsk⟩]
        · have hcnt2 := ih cm tm (List.nodup_cons.mp hnd).2 htycm h
          have hmem_iff : (n ∈ m :: ns ∧ skip ty = false) ↔ (n ∈ ns ∧ skip ty = false) := by
            constructor
            · rintro ⟨hin, hs⟩
              rcases List.mem_cons.mp hin with rfl | hin'
              · exact absurd rfl hmn
              · exact ⟨hin', hs⟩
            · rintro ⟨hin, hs⟩
              exact ⟨List.mem_cons_of_mem _ hin, hs⟩
          rcases hcase with ⟨hsk, rfl⟩ | ⟨hsk, e0, rfl, hename⟩
          · rw [hcnt2]
            congr 1
            simp only [hmem_iff]
          · rw [hcnt2, countName_append, countName_single,
              if_neg (by rw [hename]; exact hmn)]
            simp only [hmem_iff, Nat.add_zero]

/-- C1: in a completed `update` call (either value of `reset`), every
`setValue` operation for a control whose cached type is `bool` or `menu`
precedes every `setValue` operation for a control whose cached type is
`int`: the type-indexed positions in the call trace are ordered. -/
theorem C1_bool_menu_before_int (device : String) (env : List String → Bool)
    (ctrls : Ctrls) (reset : Bool) (st : UpdRes)
    (h : update device env ctrls reset = .ok st)
    (i j : Nat) (ei ej : TEnt)
    (hi : st.trace.get? i = some ei) (hj : st.trace.get? j = some ej)
    (hti : ctlType ctrls ei.name = some (.str "int"))
    (htj : ctlType ctrls ej.name = some (.str "bool") ∨
           ctlType ctrls ej.name = some (.str "menu")) :
    j < i := by
  unfold update at h
  split at h
  · cases h
  · rename_i p c1 t1 heq1
    split at h
    · cases h
    · rename_i p2 c2 t2 heq2
      cases h
      obtain ⟨hk1, hty1, suf1, hsuf1, hmem1⟩ :=
        runPass_spec device env reset skipPass1 (keysOf ctrls) ctrls [] c1 t1 heq1
      obtain ⟨hk2, hty2, suf2, hsuf2, hmem2⟩ :=
        runPass_spec device env reset skipPass2 (keysOf c1) c1 t1 c2 t2 heq2
      simp only [List.nil_append] at hsuf1
      change t2.get? i = some ei at hi
      change t2.get? j = some ej at hj
      rw [hsuf2, hsuf1] at hi hj
      have hilen : suf1.length ≤ i := by
        by_contra hlt
        push_neg at hlt
        rw [List.get?_append hlt] at hi
        obtain ⟨-, ty, hty, hsk⟩ := hmem1 ei (List.get?_mem hi)
        rw [hti] at hty
        cases hty
        simp [skipPass1, pyEq] at hsk
      have hjlen : j < suf1.length := by
        by_contra hge
        push_neg at hge
        rw [List.get?_append_right hge] at hj
        obtain ⟨-, ty, hty, hsk⟩ := hmem2 ej (List.get?_mem hj)
        rw [hty1 ej.name] at hty
        rcases htj with htj | htj <;> rw [htj] at hty <;> cases hty <;>
          simp [skipPass2, pyEq] at hsk
      exact lt_of_lt_of_le hjlen hilen

/-- C1 witness: a `menu` control and an `int` control; the single menu
operation (index 0) precedes the single int operation (index 1). -/
theorem C1_witness : (0 : Nat) < 1 := by
  refine C1_bool_menu_before_int "" (fun _ => true)
    [("backlight_compensation", [("type", PyVal.str "menu"), ("value", PyVal.int 1)]),
     ("brightness", [("type", PyVal.str "int"), ("value", PyVal.int 3)])]
    false
    ⟨[("backlight_compensation", [("type", PyVal.str "menu"), ("value", PyVal.int 1)]),
      ("brightness", [("type", PyVal.str "int"), ("value", PyVal.int 3)])],
     [⟨"backlight_compensation", PyVal.int 1,
        some ["--set-ctrl", "backlight_compensation=1"]⟩,
      ⟨"brightness", PyVal.int 3, some ["--set-ctrl", "brightness=3"]⟩]⟩
    (by decide) 1 0 _ _ rfl rfl (by decide) (Or.inr (by decide))

/-- C7 counterexample: a control of type `button` (neither `int` nor `bool`
nor `menu`) is handled by both passes of one `update` call: two `setValue`
calls, both issuing a set command, against the claimed exactly one. -/
theorem C7_counterexample :
    (update "" (fun _ => true)
        [("c", [("type", PyVal.str "button"), ("value", PyVal.int 1)])]
        false).map
      (fun st => (countName st.trace "c",
        countName (st.trace.filter (fun e => e.issued.isSome)) "c")) =
    .ok (2, 2) := by decide

/-- C7 (amended): every control whose cached type is `int`, `bool` or
`menu` is handled by exactly one of the two passes: one completed `update`
call makes exactly one `setValue` call for it. -/
theorem C7_single_handling (device : String) (env : List String → Bool)
    (ctrls : Ctrls) (reset : Bool) (st : UpdRes) (n : String) (ty : PyVal)
    (h : update device env ctrls reset = .ok st)
    (hnd : (keysOf ctrls).Nodup)
    (hmem : n ∈ keysOf ctrls)
    (hty : ctlType ctrls n = some ty)
    (hknown : ty = .str "int" ∨ ty = .str "bool" ∨ ty = .str "menu") :
    countName st.trace n = 1 := by
  unfold update at h
  split at h
  · cases h
  · rename_i p c1 t1 heq1
    split at h
    · cases h
    · rename_i p2 c2 t2 heq2
      cases h
      obtain ⟨hk1, hty1, -⟩ :=
        runPass_spec device env reset skipPass1 (keysOf ctrls) ctrls [] c1 t1 heq1
      have hcnt1 := runPass_count device env reset skipPass1 (keysOf ctrls)
        ctrls [] c1 t1 n ty hnd hty heq1
      have hcnt2 := runPass_count device env reset skipPass2 (keysOf c1)
        c1 t1 c2 t2 n ty (hk1 ▸ hnd) ((hty1 n).trans hty) heq2
      rw [show countName [] n = 0 from rfl, Nat.zero_add] at hcnt1
      change countName t2 n = 1
      rw [hcnt2, hcnt1, hk1]
      rcases hknown with rfl | rfl | rfl <;>
        simp [skipPass1, skipPass2, pyEq, hmem]

/-- C7 witness: the int control of the C1 witness configuration gets
exactly one `setValue` call. -/
theorem C7_witness :
    countName
      [⟨"backlight_compensation", PyVal.int 1,
          some ["--set-ctrl", "backlight_compensation=1"]⟩,
        ⟨"brightness", PyVal.int 3, some ["--set-ctrl", "brightness=3"]⟩]
      "brightness" = 1 := by
  refine C7_single_handling "" (fun _ => true)
    [("backlight_compensation", [("type", PyVal.str "menu"), ("value", PyVal.int 1)]),
     ("brightness", [("type", PyVal.str "int"), ("value", PyVal.int 3)])]
    false
    ⟨[("backlight_compensation", [("type", PyVal.str "menu"), ("value", PyVal.int 1)]),
      ("brightness", [("type", PyVal.str "int"), ("value", PyVal.int 3)])],
     [⟨"backlight_compensation", PyVal.int 1,
        some ["--set-ctrl", "backlight_compensation=1"]⟩,
      ⟨"brightness", PyVal.int 3, some ["--set-ctrl", "brightness=3"]⟩]⟩
    "brightness" (PyVal.str "int")
    (by decide) (by decide) (by decide) (by decide) (Or.inl rfl)

/-! ## Claim C2: the stored entry for a matching line -/

theorem applyAttrs_not_mem (as : List String) (rest : String) (ctl : Ctl)
    (a : String) (ha : a ∉ as) :
    dget (applyAttrs as rest ctl) a = dget ctl a := by
  induction as generalizing ctl with
  | nil => rfl
  | cons b bs ih =>
      have hab : b ≠ a := fun hh => ha (by rw [hh]; exact List.mem_cons_self _ _)
      have ha' : a ∉ bs := fun hh => ha (List.mem_cons_of_mem _ hh)
      unfold applyAttrs
      cases findAttr b rest with
      | none => exact ih ctl ha'
      | some tok =>
          rw [ih _ ha']
          exact dget_dset_ne ctl b a (mkAttrVal tok) (Ne.symm hab)

theorem applyAttrs_mem (as : List String) (rest : String) (ctl : Ctl)
    (a : String) (hnd : as.Nodup) (ha : a ∈ as) :
    dget (applyAttrs as rest ctl) a =
      match findAttr a rest with
      | some tok => some (mkAttrVal tok)
      | none => dget ctl a := by
  induction as generalizing ctl with
  | nil => cases ha
  | cons b bs ih =>
      by_cases hab : a = b
      · subst hab
        have hnin : a ∉ bs := (List.nodup_cons.mp hnd).1
        unfold applyAttrs
        cases hf : findAttr a rest with
        | none => rw [applyAttrs_not_mem bs rest ctl a hnin]
        | some tok =>
            rw [applyAttrs_not_mem bs rest _ a hnin]
            exact dget_dset_self ctl a (mkAttrVal tok)
      · have ha' : a ∈ bs := by
          rcases List.mem_cons.mp ha with rfl | h'
          · exact absurd rfl hab
          · exact h'
        unfold applyAttrs
        cases hf : findAttr b rest with
        | none => exact ih _ (List.nodup_cons.mp hnd).2 ha'
        | some tok =>
            rw [ih _ (List.nodup_cons.mp hnd).2 ha']
            cases findAttr a rest with
            | none => exact dget_dset_ne ctl b a (mkAttrVal tok) hab
            | some tok2 => rfl

theorem applyAttrs_keys (as : List String) (rest : String) (ctl : Ctl)
    (hnd : as.Nodup) (hfresh : ∀ a ∈ as, a ∉ keysOf ctl) :
    keysOf (applyAttrs as rest ctl) =
      keysOf ctl ++ as.filter (fun a => (findAttr a rest).isSome) := by
  induction as generalizing ctl with
  | nil => simp [applyAttrs]
  | cons b bs ih =>
      unfold applyAttrs
      cases hf : findAttr b rest with
      | none =>
          rw [ih ctl (List.nodup_cons.mp hnd).2
            (fun a ha => hfresh a (List.mem_cons_of_mem _ ha))]
          simp [List.filter_cons, hf]
      | some tok =>
          have hbf : b ∉ keysOf ctl := hfresh b (List.mem_cons_self _ _)
          have hset : dset ctl b (mkAttrVal tok) = ctl ++ [(b, mkAttrVal tok)] :=
            dset_fresh ctl b (mkAttrVal tok) hbf
          have hkeys : keysOf (dset ctl b (mkAttrVal tok)) = keysOf ctl ++ [b] := by
            rw [hset]; simp [keysOf]
          rw [ih _ (List.nodup_cons.mp hnd).2 ?fresh, hkeys]
          · simp [List.filter_cons, hf]
          case fresh =>
            intro a ha
            rw [hkeys]
            intro hmem
            rcases List.mem_append.mp hmem with h' | h'
            · exact hfresh a (List.mem_cons_of_mem _ ha) h'
            · have : a = b := by simpa using h'
              exact (List.nodup_cons.mp hnd).1 (this ▸ ha)

/-- C2: for every line matching the control pattern (word name, parenthesized
lowercase type, colon, remainder), `get_ctls` stores under the name an entry
whose `type` field is the parenthesized word and which holds exactly those of
the six attributes that occur as `attr=token` in the remainder, each stored
as an integer when Python `int()` accepts the token and as the token string
otherwise. -/
theorem C2_ctl_entry (ctrls : Ctrls) (line : String) (n ty rest : String)
    (h : reCtlFind line.data = some (n, ty, rest)) :
    ∃ ctrls2, processLine ctrls line = .ok ctrls2 ∧
      ∃ ctl, dget ctrls2 n = some ctl ∧
        dget ctl "type" = some (.str ty) ∧
        (∀ a ∈ ATTRS, dget ctl a = (findAttr a rest).map (fun tok => mkAttrVal tok)) ∧
        keysOf ctl = "type" :: ATTRS.filter (fun a => (findAttr a rest).isSome) := by
  refine ⟨dset ctrls n (buildCtl ty rest), by simp [processLine, h],
    buildCtl ty rest, dget_dset_self _ _ _, ?_, ?_, ?_⟩
  · rw [buildCtl, applyAttrs_not_mem ATTRS rest _ "type" (by decide)]
    rfl
  · intro a ha
    have hne : a ≠ "type" := (by decide : ∀ a ∈ ATTRS, a ≠ "type") a ha
    rw [buildCtl, applyAttrs_mem ATTRS rest _ a (by decide) ha]
    cases hf : findAttr a rest with
    | none => simp [dget, Ne.symm hne]
    | some tok => rfl
  · rw [buildCtl, applyAttrs_keys ATTRS rest _ (by decide) ?fresh]
    · rfl
    case fresh =>
      intro a ha
      have hne : a ≠ "type" := (by decide : ∀ a ∈ ATTRS, a ≠ "type") a ha
      simp [keysOf, hne]

/-- C2 witness: a concrete `v4l2-ctl -l` line. -/
theorem C2_witness :
    ∃ ctrls2, processLine []
        "                     brightness 0x00980900 (int)    : min=0 max=255 step=1 default=128 value=128"
        = .ok ctrls2 ∧
      ∃ ctl, dget ctrls2 "brightness" = some ctl ∧
        dget ctl "type" = some (.str "int") ∧
        (∀ a ∈ ATTRS, dget ctl a =
          (findAttr a "min=0 max=255 step=1 default=128 value=128").map
            (fun tok => mkAttrVal tok)) ∧
        keysOf ctl = "type" :: ATTRS.filter
          (fun a => (findAttr a "min=0 max=255 step=1 default=128 value=128").isSome) :=
  C2_ctl_entry []
    "                     brightness 0x00980900 (int)    : min=0 max=255 step=1 default=128 value=128"
    "brightness" "int" "min=0 max=255 step=1 default=128 value=128" (by decide)

/-! ## Claim C8: the on-disk configuration format

`Window.action_Slot` saves the control set with `json.dump(self.camCtr.ctrls, fd)`
(default separators `", "` and `": "`, `ensure_ascii=True`) and loads it back
with `self.camCtr.ctrls = json.load(fd)`.  The serializer below follows
CPython's encoder for the values that can occur (string keys, control
dictionaries whose values are ints and strings); the parser models
`json.load` restricted to that grammar (objects of objects of ints and
strings; a `\uXXXX` escape of a lone surrogate half is not representable in
a Lean `Char` and is rejected). -/

/-- Double quote. -/
def qchar : Char := Char.ofNat 34

/-- Backslash. -/
def bslash : Char := Char.ofNat 92

/-- Opening brace. -/
def lbrace : Char := Char.ofNat 123

/-- Closing brace. -/
def rbrace : Char := Char.ofNat 125

/-- Lowercase hex digit, as CPython's encoder emits. -/
def hexDig (n : Nat) : Char :=
  if n < 10 then Char.ofNat (48 + n) else Char.ofNat (87 + n)

/-- A `\uXXXX` escape. -/
def uEsc (n : Nat) : List Char :=
  [bslash, 'u', hexDig (n / 4096 % 16), hexDig (n / 256 % 16),
   hexDig (n / 16 % 16), hexDig (n % 16)]

/-- CPython `json` escaping of one character (`ensure_ascii=True`): the two
self-escapes, the five short control escapes, `\uXXXX` for the remaining
control and non-ASCII characters (a surrogate pair beyond the BMP), and the
character itself otherwise. -/
def escChar (c : Char) : List Char :=
  if c = qchar then [bslash, qchar]
  else if c = bslash then [bslash, bslash]
  else if c = Char.ofNat 8 then [bslash, 'b']
  else if c = Char.ofNat 9 then [bslash, 't']
  else if c = Char.ofNat 10 then [bslash, 'n']
  else if c = Char.ofNat 12 then [bslash, 'f']
  else if c = Char.ofNat 13 then [bslash, 'r']
  else if c.toNat < 32 then uEsc c.toNat
  else if c.toNat < 127 then [c]
  else if c.toNat < 65536 then uEsc c.toNat
  else uEsc (55296 + (c.toNat - 65536) / 1024) ++ uEsc (56320 + (c.toNat - 65536) % 1024)

/-- Escaped body of a JSON string. -/
def escL : List Char → List Char
  | [] => []
  | c :: cs => escChar c ++ escL cs

/-- A serialized JSON string with its quotes. -/
def serStr (s : String) : List Char := qchar :: (escL s.data ++ [qchar])

/-- Decimal digits of a natural number, most significant first, with an
explicit recursion budget (`n` itself shrinks by a factor of ten each step,
so any budget above it suffices). -/
def natDigsAux : Nat → Nat → List Char
  | 0, _ => []
  | fuel + 1, n =>
      if n < 10 then [Char.ofNat (48 + n)]
      else natDigsAux fuel (n / 10) ++ [Char.ofNat (48 + n % 10)]

/-- Decimal digits of a natural number, most significant first. -/
def natDigs (n : Nat) : List Char := natDigsAux (n + 1) n

theorem natDigsAux_irrel : ∀ f1 f2 n, n < f1 → n < f2 →
    natDigsAux f1 n = natDigsAux f2 n := by
  intro f1
  induction f1 with
  | zero => intro f2 n h1; omega
  | succ f ih =>
      intro f2 n h1 h2
      cases f2 with
      | zero => omega
      | succ f2 =>
          simp only [natDigsAux]
          by_cases h : n < 10
          · rw [if_pos h, if_pos h]
          · rw [if_neg h, if_neg h, ih f2 (n / 10) (by omega) (by omega)]

theorem natDigs_eq (n : Nat) :
    natDigs n = if n < 10 then [Char.ofNat (48 + n)]
      else natDigs (n / 10) ++ [Char.ofNat (48 + n % 10)] := by
  have hstep : natDigsAux (n + 1) n =
      if n < 10 then [Char.ofNat (48 + n)]
      else natDigsAux n (n / 10) ++ [Char.ofNat (48 + n % 10)] := rfl
  show natDigsAux (n + 1) n = _
  rw [hstep]
  by_cases h : n < 10
  · rw [if_pos h, if_pos h]
  · rw [if_neg h, if_neg h,
      natDigsAux_irrel n (n / 10 + 1) (n / 10) (by omega) (by omega)]
    rfl

/-- Decimal notation of an integer (what CPython emits for an `int`). -/
def intChars (i : Int) : List Char :=
  if i < 0 then '-' :: natDigs i.natAbs else natDigs i.natAbs

/-- A serialized control-dictionary value. -/
def serVal : PyVal → List Char
  | .int i => intChars i
  | .str s => serStr s

/-- One `"key": value` item of an inner object. -/
def serItemC (p : String × PyVal) : List Char :=
  serStr p.1 ++ ':' :: ' ' :: serVal p.2

/-- The `", "`-separated items of an inner object. -/
def serPairsC : Ctl → List Char
  | [] => []
  | [p] => serItemC p
  | p :: rest => serItemC p ++ ',' :: ' ' :: serPairsC rest

/-- A serialized control dictionary. -/
def serCtl (c : Ctl) : List Char := lbrace :: (serPairsC c ++ [rbrace])

/-- One `"name": {...}` item of the top-level object. -/
def serItemT (p : String × Ctl) : List Char :=
  serStr p.1 ++ ':' :: ' ' :: serCtl p.2

/-- The `", "`-separated items of the top-level object. -/
def serPairsT : Ctrls → List Char
  | [] => []
  | [p] => serItemT p
  | p :: rest => serItemT p ++ ',' :: ' ' :: serPairsT rest

/-- `json.dump` of the control set: the text written by the save action. -/
def serConf (m : Ctrls) : String := String.mk (lbrace :: (serPairsT m ++ [rbrace]))

/-- JSON whitespace. -/
def isJsonWs (c : Char) : Bool :=
  c = ' ' || c = Char.ofNat 9 || c = Char.ofNat 10 || c = Char.ofNat 13

/-- Skip JSON whitespace. -/
def skipWs (s : List Char) : List Char := s.dropWhile isJsonWs

/-- Value of a hex digit. -/
def hexVal (c : Char) : Option Nat :=
  if c.isDigit then some (c.toNat - 48)
  else if 'a' ≤ c ∧ c ≤ 'f' then some (c.toNat - 87)
  else if 'A' ≤ c ∧ c ≤ 'F' then some (c.toNat - 55)
  else none

/-- JSON string body parser (after the opening quote), strict mode: raw
control characters are rejected, the standard escapes and BMP `\uXXXX`
escapes are decoded. -/
def pStrAux : List Char → List Char → Option (String × List Char)
  | _, [] => none
  | acc, c :: rest =>
      if c = qchar then some (String.mk acc.reverse, rest)
      else if c = bslash then
        match rest with
        | [] => none
        | e :: r2 =>
            if e = qchar then pStrAux (qchar :: acc) r2
            else if e = bslash then pStrAux (bslash :: acc) r2
            else if e = '/' then pStrAux ('/' :: acc) r2
            else if e = 'b' then pStrAux (Char.ofNat 8 :: acc) r2
            else if e = 'f' then pStrAux (Char.ofNat 12 :: acc) r2
            else if e = 'n' then pStrAux (Char.ofNat 10 :: acc) r2
            else if e = 'r' then pStrAux (Char.ofNat 13 :: acc) r2
            else if e = 't' then pStrAux (Char.ofNat 9 :: acc) r2
            else if e = 'u' then
              match r2 with
              | a :: b :: c2 :: d :: r3 =>
                  match hexVal a, hexVal b, hexVal c2, hexVal d with
                  | some x, some y, some z, some w =>
                      if 55296 ≤ x * 4096 + y * 256 + z * 16 + w ∧
                          x * 4096 + y * 256 + z * 16 + w ≤ 57343 then none
                      else pStrAux (Char.ofNat (x * 4096 + y * 256 + z * 16 + w) :: acc) r3
                  | _, _, _, _ => none
              | _ => none
            else none
      else if c.toNat < 32 then none
      else pStrAux (c :: acc) rest

/-- JSON string parser. -/
def pStr : List Char → Option (String × List Char)
  | [] => none
  | c :: rest => if c = qchar then pStrAux [] rest else none

/-- JSON natural-number parser: a nonempty digit run without a redundant
leading zero. -/
def pNat (s : List Char) : Option (Nat × List Char) :=
  let ds := s.takeWhile Char.isDigit
  if ds.isEmpty then none
  else if ds.head? = some (Char.ofNat 48) ∧ 1 < ds.length then none
  else some (natOfDigits ds, s.dropWhile Char.isDigit)

/-- JSON integer parser. -/
def pInt : List Char → Option (Int × List Char)
  | [] => none
  | c :: rest =>
      if c = '-' then (pNat rest).map (fun p => (-(p.1 : Int), p.2))
      else (pNat (c :: rest)).map (fun p => ((p.1 : Int), p.2))

/-- Parser for an inner-object value: a string or an integer. -/
def pPrim (s : List Char) : Option (PyVal × List Char) :=
  match pStr s with
  | some (v, r) => some (.str v, r)
  | none => (pInt s).map (fun p => (.int p.1, p.2))

/-- The `"key": value` pair loop of an inner object (after its `{`, when it
is not empty).  Pairs are inserted with Python dict semantics. -/
def pCtlPairs : Nat → Ctl → List Char → Option (Ctl × List Char)
  | 0, _, _ => none
  | fuel + 1, acc, s =>
      match pStr (skipWs s) with
      | none => none
      | some (k, r1) =>
          match skipWs r1 with
          | [] => none
          | c :: r2 =>
              if c = ':' then
                match pPrim (skipWs r2) with
                | none => none
                | some (v, r3) =>
                    match skipWs r3 with
                    | [] => none
                    | c2 :: r4 =>
                        if c2 = ',' then pCtlPairs fuel (dset acc k v) r4
                        else if c2 = rbrace then some (dset acc k v, r4)
                        else none
              else none

/-- Parser for an inner object. -/
def pCtl (fuel : Nat) (s : List Char) : Option (Ctl × List Char) :=
  match skipWs s with
  | [] => none
  | c :: r1 =>
      if c = lbrace then
        match skipWs r1 with
        | [] => pCtlPairs fuel [] r1
        | c2 :: r2 =>
            if c2 = rbrace then some ([], r2)
            else pCtlPairs fuel [] r1
      else none

/-- The pair loop of the top-level object. -/
def pTopPairs : Nat → Ctrls → List Char → Option (Ctrls × List Char)
  | 0, _, _ => none
  | fuel + 1, acc, s =>
      match pStr (skipWs s) with
      | none => none
      | some (k, r1) =>
          match skipWs r1 with
          | [] => none
          | c :: r2 =>
              if c = ':' then
                match pCtl fuel r2 with
                | none => none
                | some (v, r3) =>
                    match skipWs r3 with
                    | [] => none
                    | c2 :: r4 =>
                        if c2 = ',' then pTopPairs fuel (dset acc k v) r4
                        else if c2 = rbrace then some (dset acc k v, r4)
                        else none
              else none

/-- Parser for the whole document: one top-level object and nothing but
whitespace after it (`json.load` rejects trailing data). -/
def pConf (fuel : Nat) (s : List Char) : Option Ctrls :=
  match skipWs s with
  | [] => none
  | c :: r1 =>
      if c = lbrace then
        match skipWs r1 with
        | [] => none
        | c2 :: r2 =>
            if c2 = rbrace then (if (skipWs r2).isEmpty then some [] else none)
            else
              match pTopPairs fuel [] r1 with
              | some (m, r3) => if (skipWs r3).isEmpty then some m else none
              | none => none
      else none

/-- `json.load` of a saved configuration. -/
def parseConf (s : String) : Option Ctrls := pConf (s.length + 1) s.data

/-! ### Round-trip lemmas: strings -/

/-- Printable-ASCII strings: the characters CPython's encoder writes
verbatim (apart from the two self-escapes). -/
def PrintableStr (s : String) : Prop :=
  ∀ c ∈ s.data, 32 ≤ c.toNat ∧ c.toNat ≤ 126

/-- Printability of a control-dictionary value. -/
def PrintablePyVal : PyVal → Prop
  | .int _ => True
  | .str s => PrintableStr s

instance (s : String) : Decidable (PrintableStr s) :=
  inferInstanceAs (Decidable (∀ c ∈ s.data, 32 ≤ c.toNat ∧ c.toNat ≤ 126))

instance (v : PyVal) : Decidable (PrintablePyVal v) :=
  match v with
  | .int _ => isTrue trivial
  | .str s => inferInstanceAs (Decidable (PrintableStr s))

theorem strMk_data (s : String) : String.mk s.data = s := by cases s; rfl

theorem escChar_printable (c : Char) (h1 : 32 ≤ c.toNat) (h2 : c.toNat ≤ 126) :
    escChar c = if c = qchar then [bslash, qchar]
      else if c = bslash then [bslash, bslash] else [c] := by
  by_cases hq : c = qchar
  · subst hq; decide
  · by_cases hb : c = bslash
    · subst hb; decide
    · rw [if_neg hq, if_neg hb]
      have h8 : ¬c = Char.ofNat 8 := by
        intro hh; rw [hh] at h1; exact absurd h1 (by decide)
      have h9 : ¬c = Char.ofNat 9 := by
        intro hh; rw [hh] at h1; exact absurd h1 (by decide)
      have h10 : ¬c = Char.ofNat 10 := by
        intro hh; rw [hh] at h1; exact absurd h1 (by decide)
      have h12 : ¬c = Char.ofNat 12 := by
        intro hh; rw [hh] at h1; exact absurd h1 (by decide)
      have h13 : ¬c = Char.ofNat 13 := by
        intro hh; rw [hh] at h1; exact absurd h1 (by decide)
      unfold escChar
      rw [if_neg hq, if_neg hb, if_neg h8, if_neg h9, if_neg h10, if_neg h12,
        if_neg h13, if_neg (Nat.not_lt.mpr h1), if_pos (by omega : c.toNat < 127)]

theorem pStrAux_quote (acc l : List Char) :
    pStrAux acc (qchar :: l) = some (String.mk acc.reverse, l) := by
  rw [pStrAux.eq_def]; simp

theorem pStrAux_esc_q (acc l : List Char) :
    pStrAux acc (bslash :: qchar :: l) = pStrAux (qchar :: acc) l := by
  rw [pStrAux.eq_def]; simp [qchar, bslash]

theorem pStrAux_esc_b (acc l : List Char) :
    pStrAux acc (bslash :: bslash :: l) = pStrAux (bslash :: acc) l := by
  rw [pStrAux.eq_def]; simp [qchar, bslash]

theorem pStrAux_plain (acc : List Char) (c : Char) (l : List Char)
    (hq : c ≠ qchar) (hb : c ≠ bslash) (h32 : 32 ≤ c.toNat) :
    pStrAux acc (c :: l) = pStrAux (c :: acc) l := by
  rw [pStrAux.eq_def]; simp [hq, hb, Nat.not_lt.mpr h32]

theorem pStrAux_round (l : List Char) (hpr : ∀ c ∈ l, 32 ≤ c.toNat ∧ c.toNat ≤ 126) :
    ∀ acc rest, pStrAux acc (escL l ++ qchar :: rest) =
      some (String.mk (acc.reverse ++ l), rest) := by
  induction l with
  | nil =>
      intro acc rest
      simp [escL, pStrAux_quote]
  | cons c cs ih =>
      intro acc rest
      obtain ⟨h1, h2⟩ := hpr c (List.mem_cons_self _ _)
      have ih' := ih (fun d hd => hpr d (List.mem_cons_of_mem _ hd))
      have hesc := escChar_printable c h1 h2
      by_cases hq : c = qchar
      · subst hq
        rw [show escL (qchar :: cs) = bslash :: qchar :: escL cs from by
          rw [escL, hesc, if_pos rfl]; rfl]
        rw [List.cons_append, List.cons_append, pStrAux_esc_q, ih']
        simp
      · by_cases hb : c = bslash
        · subst hb
          rw [show escL (bslash :: cs) = bslash :: bslash :: escL cs from by
            rw [escL, hesc, if_neg hq, if_pos rfl]; rfl]
          rw [List.cons_append, List.cons_append, pStrAux_esc_b, ih']
          simp
        · rw [show escL (c :: cs) = c :: escL cs from by
            rw [escL, hesc, if_neg hq, if_neg hb]; rfl]
          rw [List.cons_append, pStrAux_plain _ _ _ hq hb h1, ih']
          simp

theorem pStr_round (s : String) (hpr : PrintableStr s) (rest : List Char) :
    pStr (serStr s ++ rest) = some (s, rest) := by
  show pStr (qchar :: ((escL s.data ++ [qchar]) ++ rest)) = _
  rw [pStr, if_pos rfl, List.append_assoc,
    show [qchar] ++ rest = qchar :: rest from rfl,
    pStrAux_round s.data hpr [] rest]
  simp [strMk_data]

theorem pStr_not_quote (c : Char) (l : List Char) (h : c ≠ qchar) :
    pStr (c :: l) = none := by
  rw [pStr, if_neg h]

/-! ### Round-trip lemmas: integers -/

theorem natDigs_ne_nil (n : Nat) : natDigs n ≠ [] := by
  rw [natDigs_eq]
  split <;> simp

theorem natDigs_vals (n : Nat) : ∀ c ∈ natDigs n, ∃ m, m < 10 ∧ c = Char.ofNat (48 + m) := by
  induction n using Nat.strong_induction_on with
  | _ n ih =>
      rw [natDigs_eq]
      split
      · rename_i h
        intro c hc
        simp only [List.mem_singleton] at hc
        exact ⟨n, h, hc⟩
      · rename_i h
        intro c hc
        rcases List.mem_append.mp hc with hc | hc
        · exact ih (n / 10) (Nat.div_lt_self (by omega) (by omega)) c hc
        · simp only [List.mem_singleton] at hc
          exact ⟨n % 10, Nat.mod_lt _ (by omega), hc⟩

theorem natOfDigits_append_one (l : List Char) (c : Char) :
    natOfDigits (l ++ [c]) = natOfDigits l * 10 + (c.toNat - 48) := by
  simp [natOfDigits, List.foldl_append]

theorem natOfDigits_natDigs (n : Nat) : natOfDigits (natDigs n) = n := by
  induction n using Nat.strong_induction_on with
  | _ n ih =>
      rw [natDigs_eq]
      split
      · rename_i h
        have hv : ∀ m, m < 10 → (Char.ofNat (48 + m)).toNat = 48 + m := by decide
        simp [natOfDigits, hv n h]
      · rename_i h
        rw [natOfDigits_append_one, ih (n / 10) (Nat.div_lt_self (by omega) (by omega))]
        have hv : (Char.ofNat (48 + n % 10)).toNat = 48 + n % 10 :=
          (by decide : ∀ m, m < 10 → (Char.ofNat (48 + m)).toNat = 48 + m)
            (n % 10) (Nat.mod_lt _ (by omega))
        rw [hv]
        omega

theorem natDigs_head_pos (n : Nat) (hn : 0 < n) :
    (natDigs n).head? ≠ some (Char.ofNat 48) := by
  induction n using Nat.strong_induction_on with
  | _ n ih =>
      rw [natDigs_eq]
      split
      · rename_i h
        exact (by decide : ∀ m, m < 10 → 0 < m →
          (some (Char.ofNat (48 + m)) ≠ some (Char.ofNat 48))) n h hn
      · rename_i h
        cases hl : natDigs (n / 10) with
        | nil => exact absurd hl (natDigs_ne_nil _)
        | cons a as =>
            have := ih (n / 10) (Nat.div_lt_self (by omega) (by omega))
              (by omega : 0 < n / 10)
            rw [hl] at this
            simpa using this

/-- The head of a list fails the predicate (or the list is empty). -/
def headNotP (p : Char → Bool) : List Char → Prop
  | [] => True
  | c :: _ => p c = false

theorem takeWhile_append_not (p : Char → Bool) (l rest : List Char)
    (hall : ∀ c ∈ l, p c = true) (hrest : headNotP p rest) :
    (l ++ rest).takeWhile p = l ∧ (l ++ rest).dropWhile p = rest := by
  induction l with
  | nil =>
      cases rest with
      | nil => simp
      | cons c t =>
          have hc : p c = false := hrest
          simp [List.takeWhile, List.dropWhile, hc]
  | cons c cs ih =>
      have hc := hall c (List.mem_cons_self _ _)
      have := ih (fun d hd => hall d (List.mem_cons_of_mem _ hd))
      simp [List.takeWhile_cons, List.dropWhile_cons, hc, this]

theorem natDigs_all_digit (n : Nat) : ∀ c ∈ natDigs n, c.isDigit = true := by
  intro c hc
  obtain ⟨m, hm, rfl⟩ := natDigs_vals n c hc
  exact (by decide : ∀ m, m < 10 → (Char.ofNat (48 + m)).isDigit = true) m hm

theorem pNat_round (n : Nat) (rest : List Char)
    (hrest : headNotP Char.isDigit rest) :
    pNat (natDigs n ++ rest) = some (n, rest) := by
  obtain ⟨htake, hdrop⟩ :=
    takeWhile_append_not Char.isDigit (natDigs n) rest (natDigs_all_digit n) hrest
  have hne : (natDigs n).isEmpty = false := by
    cases hl : natDigs n with
    | nil => exact absurd hl (natDigs_ne_nil _)
    | cons a as => rfl
  simp only [pNat, htake, hdrop, hne, Bool.false_eq_true, if_false]
  rw [if_neg, natOfDigits_natDigs]
  rcases Nat.eq_zero_or_pos n with rfl | hpos
  · rw [show natDigs 0 = [Char.ofNat 48] from rfl]
    simp
  · intro ⟨hh, _⟩
    exact natDigs_head_pos n hpos hh

theorem pInt_round (i : Int) (rest : List Char)
    (hrest : headNotP Char.isDigit rest) :
    pInt (intChars i ++ rest) = some (i, rest) := by
  unfold intChars
  by_cases hneg : i < 0
  · rw [if_pos hneg, List.cons_append, pInt, if_pos rfl, pNat_round _ _ hrest]
    show some (-((i.natAbs : Nat) : Int), rest) = some (i, rest)
    have hv : -((i.natAbs : Nat) : Int) = i := by omega
    rw [hv]
  · rw [if_neg hneg]
    cases hd : natDigs i.natAbs with
    | nil => exact absurd hd (natDigs_ne_nil _)
    | cons a as =>
        obtain ⟨m, hm, rfl⟩ := natDigs_vals i.natAbs a
          (by rw [hd]; exact List.mem_cons_self _ _)
        have ha : ¬Char.ofNat (48 + m) = '-' :=
          (by decide : ∀ m, m < 10 → ¬Char.ofNat (48 + m) = '-') m hm
        rw [List.cons_append, pInt, if_neg ha, ← List.cons_append, ← hd,
          pNat_round _ _ hrest]
        show some (((i.natAbs : Nat) : Int), rest) = some (i, rest)
        have hv : ((i.natAbs : Nat) : Int) = i := by omega
        rw [hv]

/-! ### Round-trip lemmas: primitive values -/

theorem pPrim_round (v : PyVal) (rest : List Char)
    (hpr : PrintablePyVal v) (hrest : headNotP Char.isDigit rest) :
    pPrim (serVal v ++ rest) = some (v, rest) := by
  cases v with
  | str s =>
      unfold pPrim
      rw [show serVal (.str s) = serStr s from rfl, pStr_round s hpr rest]
  | int i =>
      unfold pPrim
      rw [show serVal (.int i) = intChars i from rfl]
      have hnq : pStr (intChars i ++ rest) = none := by
        unfold intChars
        by_cases hneg : i < 0
        · rw [if_pos hneg, List.cons_append]
          exact pStr_not_quote _ _ (by decide)
        · rw [if_neg hneg]
          cases hd : natDigs i.natAbs with
          | nil => exact absurd hd (natDigs_ne_nil _)
          | cons a as =>
              obtain ⟨m, hm, rfl⟩ := natDigs_vals i.natAbs a
                (by rw [hd]; exact List.mem_cons_self _ _)
              rw [List.cons_append]
              exact pStr_not_quote _ _
                ((by decide : ∀ m, m < 10 → ¬Char.ofNat (48 + m) = qchar) m hm)
      rw [hnq, pInt_round i rest hrest]
      rfl

/-! ### Round-trip lemmas: objects -/

theorem skipWs_not (c : Char) (l : List Char) (h : isJsonWs c = false) :
    skipWs (c :: l) = c :: l := by
  simp [skipWs, List.dropWhile_cons, h]

theorem skipWs_ws (c : Char) (l : List Char) (h : isJsonWs c = true) :
    skipWs (c :: l) = skipWs l := by
  simp [skipWs, List.dropWhile_cons, h]

theorem skipWs_serStr (s : String) (X : List Char) :
    skipWs (serStr s ++ X) = serStr s ++ X :=
  skipWs_not qchar ((escL s.data ++ [qchar]) ++ X) (by decide)

theorem skipWs_serVal (v : PyVal) (X : List Char) :
    skipWs (serVal v ++ X) = serVal v ++ X := by
  cases v with
  | str s => exact skipWs_serStr s X
  | int i =>
      show skipWs (intChars i ++ X) = intChars i ++ X
      unfold intChars
      by_cases h : i < 0
      · rw [if_pos h, List.cons_append]
        exact skipWs_not _ _ (by decide)
      · rw [if_neg h]
        cases hd : natDigs i.natAbs with
        | nil => exact absurd hd (natDigs_ne_nil _)
        | cons a as =>
            obtain ⟨m, hm, rfl⟩ := natDigs_vals i.natAbs a
              (by rw [hd]; exact List.mem_cons_self _ _)
            rw [List.cons_append]
            exact skipWs_not _ _
              ((by decide : ∀ m, m < 10 → isJsonWs (Char.ofNat (48 + m)) = false) m hm)

theorem headNotP_cons (p : Char → Bool) (c : Char) (l : List Char)
    (h : p c = false) : headNotP p (c :: l) := h

theorem pCtlPairs_skip_ws (f : Nat) (acc : Ctl) (c : Char) (l : List Char)
    (h : isJsonWs c = true) :
    pCtlPairs (f + 1) acc (c :: l) = pCtlPairs (f + 1) acc l := by
  simp only [pCtlPairs]
  rw [skipWs_ws _ _ h]

theorem pCtl_skip_ws (fuel : Nat) (c : Char) (l : List Char)
    (h : isJsonWs c = true) : pCtl fuel (c :: l) = pCtl fuel l := by
  unfold pCtl
  rw [skipWs_ws _ _ h]

theorem pTopPairs_skip_ws (f : Nat) (acc : Ctrls) (c : Char) (l : List Char)
    (h : isJsonWs c = true) :
    pTopPairs (f + 1) acc (c :: l) = pTopPairs (f + 1) acc l := by
  simp only [pTopPairs]
  rw [skipWs_ws _ _ h]

theorem pCtlPairs_item (f : Nat) (acc : Ctl) (k : String) (v : PyVal)
    (tail : List Char) (hpk : PrintableStr k) (hpv : PrintablePyVal v)
    (hdig : headNotP Char.isDigit tail) :
    pCtlPairs (f + 1) acc (serItemC (k, v) ++ tail) =
      (match skipWs tail with
       | [] => none
       | c2 :: r4 =>
           if c2 = ',' then pCtlPairs f (dset acc k v) r4
           else if c2 = rbrace then some (dset acc k v, r4)
           else none) := by
  have hshape : serItemC (k, v) ++ tail =
      serStr k ++ (':' :: ' ' :: (serVal v ++ tail)) := by
    simp [serItemC]
  rw [hshape]
  have hsk1 : skipWs (':' :: ' ' :: (serVal v ++ tail)) =
      ':' :: ' ' :: (serVal v ++ tail) := skipWs_not _ _ (by decide)
  have hsk2 : skipWs (' ' :: (serVal v ++ tail)) = serVal v ++ tail := by
    rw [skipWs_ws _ _ (by decide), skipWs_serVal]
  simp only [pCtlPairs, skipWs_serStr, pStr_round k hpk, hsk1,
    eq_self_iff_true, if_true, hsk2, pPrim_round v tail hpv hdig]

theorem pCtlPairs_round (l : Ctl) : ∀ (fuel : Nat) (acc : Ctl) (rest : List Char),
    l ≠ [] → l.length ≤ fuel → (keysOf l).Nodup →
    (∀ k ∈ keysOf l, k ∉ keysOf acc) →
    (∀ p ∈ l, PrintableStr p.1 ∧ PrintablePyVal p.2) →
    pCtlPairs fuel acc (serPairsC l ++ rbrace :: rest) = some (acc ++ l, rest) := by
  induction l with
  | nil => intro _ _ _ hne; exact absurd rfl hne
  | cons p ps ih =>
      intro fuel acc rest _ hfuel hnd hfresh hok
      obtain ⟨k, v⟩ := p
      obtain ⟨hpk, hpv⟩ := hok (k, v) (List.mem_cons_self _ _)
      have hks : k ∉ keysOf acc := hfresh k (List.mem_cons_self _ _)
      cases fuel with
      | zero => simp at hfuel
      | succ f =>
          cases ps with
          | nil =>
              rw [show serPairsC [(k, v)] = serItemC (k, v) from rfl,
                pCtlPairs_item f acc k v (rbrace :: rest) hpk hpv
                  (headNotP_cons _ _ _ (by decide)),
                skipWs_not _ _ (by decide)]
              dsimp only
              rw [if_neg (by decide), if_pos rfl, dset_fresh acc k v hks]
          | cons p2 ps2 =>
              rw [show serPairsC ((k, v) :: p2 :: ps2) =
                    serItemC (k, v) ++ ',' :: ' ' :: serPairsC (p2 :: ps2) from rfl,
                List.append_assoc,
                show (',' :: ' ' :: serPairsC (p2 :: ps2)) ++ rbrace :: rest =
                  ',' :: ' ' :: (serPairsC (p2 :: ps2) ++ rbrace :: rest) from rfl,
                pCtlPairs_item f acc k v _ hpk hpv
                  (headNotP_cons _ _ _ (by decide)),
                skipWs_not _ _ (by decide)]
              dsimp only
              rw [if_pos rfl]
              cases f with
              | zero =>
                  exfalso
                  simp at hfuel
              | succ f2 =>
                  rw [pCtlPairs_skip_ws f2 _ _ _ (by decide),
                    dset_fresh acc k v hks]
                  have hnd' := (List.nodup_cons.mp hnd).2
                  have hknin := (List.nodup_cons.mp hnd).1
                  rw [ih (f2 + 1) (acc ++ [(k, v)]) rest (by simp)
                    (by simp at hfuel ⊢; omega) hnd' ?fresh
                    (fun q hq => hok q (List.mem_cons_of_mem _ hq))]
                  · rw [List.append_assoc]
                    rfl
                  case fresh =>
                    intro k2 hk2
                    rw [show keysOf (acc ++ [(k, v)]) = keysOf acc ++ [k] from by
                      simp [keysOf]]
                    intro hmem
                    rcases List.mem_append.mp hmem with h' | h'
                    · exact hfresh k2 (List.mem_cons_of_mem _ hk2) h'
                    · have : k2 = k := by simpa using h'
                      subst this
                      exact hknin hk2

theorem pCtl_round (c : Ctl) (fuel : Nat) (rest : List Char)
    (hfuel : c.length ≤ fuel) (hnd : (keysOf c).Nodup)
    (hok : ∀ p ∈ c, PrintableStr p.1 ∧ PrintablePyVal p.2) :
    pCtl fuel (serCtl c ++ rest) = some (c, rest) := by
  have hshape : serCtl c ++ rest = lbrace :: (serPairsC c ++ rbrace :: rest) := by
    simp [serCtl]
  rw [hshape]
  unfold pCtl
  rw [skipWs_not _ _ (by decide)]
  dsimp only
  rw [if_pos rfl]
  cases c with
  | nil =>
      rw [show serPairsC ([] : Ctl) = [] from rfl, List.nil_append,
        skipWs_not _ _ (by decide)]
      dsimp only
      rw [if_pos rfl]
  | cons p ps =>
      have hqt : ∃ t, serPairsC (p :: ps) = qchar :: t := by
        cases ps with
        | nil => exact ⟨_, rfl⟩
        | cons q qs => exact ⟨_, rfl⟩
      obtain ⟨t, ht⟩ := hqt
      rw [ht, List.cons_append, skipWs_not _ _ (by decide)]
      dsimp only
      rw [if_neg (by decide), ← List.cons_append, ← ht,
        pCtlPairs_round (p :: ps) fuel [] rest (by simp) hfuel hnd
          (by intro k hk; simp [keysOf]) hok]
      rfl

/-- Number of object pairs in a configuration, nesting included: the fuel
the pair loops consume. -/
def totalSize : Ctrls → Nat
  | [] => 0
  | p :: rest => 1 + p.2.length + totalSize rest

theorem pTopPairs_item (f : Nat) (acc : Ctrls) (k : String) (c : Ctl)
    (tail : List Char) (hpk : PrintableStr k)
    (hfc : c.length ≤ f) (hnd : (keysOf c).Nodup)
    (hok : ∀ p ∈ c, PrintableStr p.1 ∧ PrintablePyVal p.2) :
    pTopPairs (f + 1) acc (serItemT (k, c) ++ tail) =
      (match skipWs tail with
       | [] => none
       | c2 :: r4 =>
           if c2 = ',' then pTopPairs f (dset acc k c) r4
           else if c2 = rbrace then some (dset acc k c, r4)
           else none) := by
  have hshape : serItemT (k, c) ++ tail =
      serStr k ++ (':' :: ' ' :: (serCtl c ++ tail)) := by
    simp [serItemT]
  rw [hshape]
  have hsk1 : skipWs (':' :: ' ' :: (serCtl c ++ tail)) =
      ':' :: ' ' :: (serCtl c ++ tail) := skipWs_not _ _ (by decide)
  have hctl : pCtl f (' ' :: (serCtl c ++ tail)) = some (c, tail) := by
    rw [pCtl_skip_ws f _ _ (by decide), pCtl_round c f tail hfc hnd hok]
  simp only [pTopPairs, skipWs_serStr, pStr_round k hpk, hsk1,
    eq_self_iff_true, if_true, hctl]

theorem pTopPairs_round (l : Ctrls) : ∀ (fuel : Nat) (acc : Ctrls) (rest : List Char),
    l ≠ [] → totalSize l ≤ fuel → (keysOf l).Nodup →
    (∀ k ∈ keysOf l, k ∉ keysOf acc) →
    (∀ p ∈ l, PrintableStr p.1 ∧ (keysOf p.2).Nodup ∧
      ∀ q ∈ p.2, PrintableStr q.1 ∧ PrintablePyVal q.2) →
    pTopPairs fuel acc (serPairsT l ++ rbrace :: rest) = some (acc ++ l, rest) := by
  induction l with
  | nil => intro _ _ _ hne; exact absurd rfl hne
  | cons p ps ih =>
      intro fuel acc rest _ hfuel hnd hfresh hok
      obtain ⟨k, c⟩ := p
      obtain ⟨hpk, hndc, hokc⟩ := hok (k, c) (List.mem_cons_self _ _)
      have hks : k ∉ keysOf acc := hfresh k (List.mem_cons_self _ _)
      cases fuel with
      | zero => exfalso; simp [totalSize] at hfuel
      | succ f =>
          have hfc : c.length ≤ f := by simp [totalSize] at hfuel; omega
          cases ps with
          | nil =>
              rw [show serPairsT [(k, c)] = serItemT (k, c) from rfl,
                pTopPairs_item f acc k c (rbrace :: rest) hpk hfc hndc hokc,
                skipWs_not _ _ (by decide)]
              dsimp only
              rw [if_neg (by decide), if_pos rfl, dset_fresh acc k c hks]
          | cons p2 ps2 =>
              rw [show serPairsT ((k, c) :: p2 :: ps2) =
                    serItemT (k, c) ++ ',' :: ' ' :: serPairsT (p2 :: ps2) from rfl,
                List.append_assoc,
                show (',' :: ' ' :: serPairsT (p2 :: ps2)) ++ rbrace :: rest =
                  ',' :: ' ' :: (serPairsT (p2 :: ps2) ++ rbrace :: rest) from rfl,
                pTopPairs_item f acc k c _ hpk hfc hndc hokc,
                skipWs_not _ _ (by decide)]
              dsimp only
              rw [if_pos rfl]
              cases f with
              | zero =>
                  exfalso
                  simp [totalSize] at hfuel
                  omega
              | succ f2 =>
                  rw [pTopPairs_skip_ws f2 _ _ _ (by decide),
                    dset_fresh acc k c hks]
                  rw [ih (f2 + 1) (acc ++ [(k, c)]) rest (by simp)
                    (by simp [totalSize] at hfuel ⊢; omega)
                    (List.nodup_cons.mp hnd).2 ?fresh
                    (fun q hq => hok q (List.mem_cons_of_mem _ hq))]
                  · rw [List.append_assoc]
                    rfl
                  case fresh =>
                    intro k2 hk2
                    rw [show keysOf (acc ++ [(k, c)]) = keysOf acc ++ [k] from by
                      simp [keysOf]]
                    intro hmem
                    rcases List.mem_append.mp hmem with h' | h'
                    · exact hfresh k2 (List.mem_cons_of_mem _ hk2) h'
                    · have hkk : k2 = k := by simpa using h'
                      subst hkk
                      exact (List.nodup_cons.mp hnd).1 hk2

theorem serStr_len (s : String) : 2 ≤ (serStr s).length := by
  simp [serStr]

theorem serPairsC_len (c : Ctl) : c.length ≤ (serPairsC c).length := by
  induction c with
  | nil => simp [serPairsC]
  | cons p ps ih =>
      have h1 := serStr_len p.1
      cases ps with
      | nil =>
          simp only [serPairsC, serItemC, List.length_append, List.length_cons,
            List.length_singleton, List.length_nil]
          omega
      | cons q qs =>
          simp only [serPairsC, serItemC, List.length_append, List.length_cons] at ih ⊢
          omega

theorem totalSize_le (m : Ctrls) : totalSize m ≤ (serPairsT m).length := by
  induction m with
  | nil => simp [totalSize, serPairsT]
  | cons p ps ih =>
      have h1 := serStr_len p.1
      have h2 := serPairsC_len p.2
      cases ps with
      | nil =>
          simp only [totalSize, serPairsT, serItemT, serCtl, List.length_append,
            List.length_cons, List.length_singleton, List.length_nil]
          omega
      | cons q qs =>
          simp only [totalSize, serPairsT, serItemT, serCtl, List.length_append,
            List.length_cons] at ih ⊢
          omega

theorem pConf_round (m : Ctrls) (fuel : Nat) (hfuel : totalSize m ≤ fuel)
    (hnd : (keysOf m).Nodup)
    (hok : ∀ p ∈ m, PrintableStr p.1 ∧ (keysOf p.2).Nodup ∧
      ∀ q ∈ p.2, PrintableStr q.1 ∧ PrintablePyVal q.2) :
    pConf fuel (lbrace :: (serPairsT m ++ [rbrace])) = some m := by
  unfold pConf
  rw [skipWs_not _ _ (by decide)]
  dsimp only
  rw [if_pos rfl]
  cases m with
  | nil =>
      rw [show serPairsT ([] : Ctrls) ++ [rbrace] = [rbrace] from rfl,
        skipWs_not _ _ (by decide)]
      dsimp only
      rw [if_pos rfl, show skipWs ([] : List Char) = [] from rfl]
      rfl
  | cons p ps =>
      have hqt : ∃ t, serPairsT (p :: ps) = qchar :: t := by
        cases ps with
        | nil => exact ⟨_, rfl⟩
        | cons q qs => exact ⟨_, rfl⟩
      obtain ⟨t, ht⟩ := hqt
      rw [show serPairsT (p :: ps) ++ [rbrace] = serPairsT (p :: ps) ++ rbrace :: [] from rfl,
        ht, List.cons_append, skipWs_not _ _ (by decide)]
      dsimp only
      rw [if_neg (by decide), ← List.cons_append, ← ht,
        pTopPairs_round (p :: ps) fuel [] [] (by simp) hfuel hnd
          (by intro k hk; simp [keysOf]) hok]
      rfl

/-- C8: the save action serializes the cached control mapping with
`json.dump` and the load action reads it back with `json.load`; for every
mapping (no duplicate names or attribute keys) whose strings are printable
ASCII — the model's string domain, covering everything the program ever
stores — the round trip restores a mapping equal to the one saved. -/
theorem C8_save_load_round_trip (m : Ctrls)
    (hnd : (keysOf m).Nodup)
    (hok : ∀ p ∈ m, PrintableStr p.1 ∧ (keysOf p.2).Nodup ∧
      ∀ q ∈ p.2, PrintableStr q.1 ∧ PrintablePyVal q.2) :
    parseConf (serConf m) = some m := by
  have hdata : (serConf m).data = lbrace :: (serPairsT m ++ [rbrace]) := rfl
  have hlen : (serConf m).length = (serPairsT m).length + 2 := by
    show (serConf m).data.length = _
    rw [hdata]
    simp
  unfold parseConf
  rw [hdata, hlen]
  exact pConf_round m _ (by have := totalSize_le m; omega) hnd hok

/-- C8 witness: a concrete control mapping round-trips through the format. -/
theorem C8_witness :
    parseConf (serConf
      [("brightness", [("type", PyVal.str "int"), ("min", PyVal.int 0),
        ("max", PyVal.int 255), ("value", PyVal.int 128)]),
       ("exposure_auto", [("type", PyVal.str "menu"), ("value", PyVal.int 3),
        ("flags", PyVal.str "inactive")])]) =
    some
      [("brightness", [("type", PyVal.str "int"), ("min", PyVal.int 0),
        ("max", PyVal.int 255), ("value", PyVal.int 128)]),
       ("exposure_auto", [("type", PyVal.str "menu"), ("value", PyVal.int 3),
        ("flags", PyVal.str "inactive")])] :=
  C8_save_load_round_trip
    [("brightness", [("type", PyVal.str "int"), ("min", PyVal.int 0),
      ("max", PyVal.int 255), ("value", PyVal.int 128)]),
     ("exposure_auto", [("type", PyVal.str "menu"), ("value", PyVal.int 3),
      ("flags", PyVal.str "inactive")])]
    (by decide) (by decide)


